import Mathlib

/-!
Verification development for the multi-directory column pivot tool
(`多目录文件透视某列.py`).  The shallow embedding below models the core
batch-aggregation pipeline of `AnalysisWorker`: the summary row/column
filter (`_preprocess_df`), the filename identifier extractor
(`_extract_monthly_card`), the table loader (header override and CSV
encoding fallback) and the `run` loop with its progress/result/finished
signals and cooperative cancellation flag.

Cells carry a tagged value (number, text, or missing), mirroring how a
pandas column holds floats, strings or NaN.  Numbers are modelled as
exact rationals in place of IEEE doubles, so sums are exact.
-/

namespace PivotTool

/-- A single cell of a loaded table: a numeric value, a textual value, or
missing data (pandas `NaN`). -/
inductive Cell where
  | num (q : ℚ)
  | text (s : String)
  | missing
deriving DecidableEq, Repr

/-- A loaded table (pandas `DataFrame`): a header row of column names and a
list of rows, each row a list of cells aligned positionally with the
headers. -/
structure Table where
  headers : List String
  rows : List (List Cell)
deriving DecidableEq, Repr

/-- Python's `str.strip()`: remove leading and trailing whitespace. -/
def pyStrip (s : String) : String :=
  (((s.toList.dropWhile Char.isWhitespace).reverse.dropWhile Char.isWhitespace).reverse).asString

/-- `str(c).strip() in ['合 计', '合计']` — the column-name test used both by
`_preprocess_df` and by the header prober. -/
def isSummaryName (s : String) : Bool :=
  pyStrip s == "合 计" || pyStrip s == "合计"

/-- `df[col].astype(str)` applied to one cell: strings stay themselves,
numbers print in decimal notation, and `NaN` prints as `"nan"`. -/
def cellToStr : Cell → String
  | Cell.num q => toString q
  | Cell.text s => s
  | Cell.missing => "nan"

/-- `pat` occurs as a contiguous substring of `l`. -/
def containsSub (pat : List Char) : List Char → Bool
  | [] => pat == []
  | c :: cs => pat.isPrefixOf (c :: cs) || containsSub pat cs

/-- The regex test `str.contains('合 计|合计', regex=True)`: either marker
occurs as a substring (case-sensitive). -/
def containsMarker (s : String) : Bool :=
  containsSub "合 计".toList s.toList || containsSub "合计".toList s.toList

/-- Cell of row `r` at column position `j` (missing when out of range). -/
def getCell (r : List Cell) (j : Nat) : Cell :=
  r.getD j Cell.missing

/-- Keep the entries of `r` at positions whose `keep` flag is true. -/
def dropRowCells (keep : List Bool) (r : List Cell) : List Cell :=
  ((keep.zip r).filter (fun p => p.fst)).map (fun p => p.snd)

/-- First pass of `_preprocess_df`: `df.drop(columns=cols_to_drop)` where
`cols_to_drop` are the columns whose trimmed name is a summary marker. -/
def dropSummaryCols (t : Table) : Table :=
  { headers := t.headers.filter (fun h => !(isSummaryName h)),
    rows := t.rows.map (dropRowCells (t.headers.map (fun h => !(isSummaryName h)))) }

/-- `df[col].dtype == 'object'`: a column is object-typed when it holds at
least one textual cell. -/
def colIsObject (rows : List (List Cell)) (j : Nat) : Bool :=
  rows.any (fun r => match getCell r j with
    | Cell.text _ => true
    | _ => false)

/-- One iteration of the row-filter loop of `_preprocess_df`: if column `j`
is object-typed in the current frame, drop every row whose stringified cell
at `j` contains a marker (`df = df[~mask]`); otherwise leave the frame
unchanged. -/
def rowFilterStep (rows : List (List Cell)) (j : Nat) : List (List Cell) :=
  if colIsObject rows j then
    rows.filter (fun r => !(containsMarker (cellToStr (getCell r j))))
  else rows

/-- `AnalysisWorker._preprocess_df`: drop summary-named columns, then walk
the remaining column positions in order, dropping marker rows column by
column. -/
def preprocessDf (t : Table) : Table :=
  let t1 := dropSummaryCols t
  { headers := t1.headers,
    rows := (List.range t1.headers.length).foldl rowFilterStep t1.rows }

/-- Modelled from the spec (section 4.2): the one-shot description of the
row pass — a row is dropped exactly when some object-typed column (of the
column-filtered table) has a stringified cell containing a marker.  Stated
for comparison with the sequential `preprocessDf` taken from the source. -/
def preprocessSpecDf (t : Table) : Table :=
  let t1 := dropSummaryCols t
  { headers := t1.headers,
    rows := t1.rows.filter (fun r =>
      !((List.range t1.headers.length).any (fun j =>
        colIsObject t1.rows j && containsMarker (cellToStr (getCell r j))))) }

/-- The window test of `re.search(r'\d{10}', name)` at one position: the
next ten characters exist and are all decimal digits. -/
def checkWin (cs : List Char) : Bool :=
  (cs.take 10).length == 10 && (cs.take 10).all Char.isDigit

/-- Leftmost-match scan of `re.search(r'\d{10}', name)`: try each start
position from the left, returning the first 10-digit window. -/
def findWindow : List Char → Option (List Char)
  | [] => none
  | c :: cs => if checkWin (c :: cs) then some ((c :: cs).take 10) else findWindow cs

/-- `AnalysisWorker._extract_monthly_card`: the first 10-digit run found in
the file name, or the empty string. -/
def extractMonthlyCard (filename : String) : String :=
  match findWindow filename.toList with
  | some w => w.asString
  | none => ""

/-- Decimal digits to a natural number. -/
def digitsToNat (cs : List Char) : Nat :=
  cs.foldl (fun n c => n * 10 + (c.toNat - 48)) 0

/-- Unsigned part of the numeric parse: integer digits with an optional
decimal point and fraction digits. -/
def parseNumCore (neg : Bool) (t : List Char) : Option ℚ :=
  match t.splitOn '.' with
  | [ip] =>
      if ip ≠ [] ∧ ip.all Char.isDigit then
        some ((if neg then -1 else 1) * (digitsToNat ip : ℚ))
      else none
  | [ip, fp] =>
      if (ip ≠ [] ∨ fp ≠ []) ∧ ip.all Char.isDigit ∧ fp.all Char.isDigit then
        some ((if neg then -1 else 1) *
          ((digitsToNat ip : ℚ) + (digitsToNat fp : ℚ) / (10 : ℚ) ^ fp.length))
      else none
  | _ => none

/-- Best-effort parse of a string as a number, modelling what
`pd.to_numeric(..., errors='coerce')` accepts for text cells (decimal
notation with optional sign after whitespace stripping; scientific
notation is not modelled). -/
def parseNum (s0 : String) : Option ℚ :=
  match (pyStrip s0).toList with
  | '-' :: rest => parseNumCore true rest
  | '+' :: rest => parseNumCore false rest
  | rest => parseNumCore false rest

/-- `pd.to_numeric(cell, errors='coerce')` on one cell: numbers pass
through, numeric-looking text parses, everything else becomes missing. -/
def toNumeric : Cell → Option ℚ
  | Cell.num q => some q
  | Cell.text s => parseNum s
  | Cell.missing => none

/-- The coerced cell stored back into the column (`NaN` on failure). -/
def coerceCell (c : Cell) : Cell :=
  match toNumeric c with
  | some q => Cell.num q
  | none => Cell.missing

/-- `Series.sum()`: fold over the column, skipping missing values; the
empty column sums to zero. -/
def seriesSum (cells : List Cell) : ℚ :=
  cells.foldl (fun acc c => match c with
    | Cell.num q => acc + q
    | _ => acc) 0

/-- `df[name]`: the cells of the first column with the given header. -/
def getColumn (t : Table) (name : String) : List Cell :=
  match t.headers.findIdx? (fun h => h == name) with
  | some j => t.rows.map (fun r => getCell r j)
  | none => []

/-- The per-file subtotal computed by `run`:
`df[col] = pd.to_numeric(df[col], errors='coerce'); df[col].sum()`. -/
def fileSubtotal (t : Table) (name : String) : ℚ :=
  seriesSum ((getColumn t name).map coerceCell)

/-- Why a CSV read attempt failed: a character-decoding error
(`UnicodeDecodeError`) or any other exception. -/
inductive ReadError where
  | decodeError
  | otherError (msg : String)
deriving DecidableEq, Repr

/-- An `.xlsx` file: its name and the outcome of `pd.read_excel`. -/
structure XlsxFile where
  name : String
  parsed : Except String Table

/-- A `.csv` file: its name and the outcomes of reading it with the UTF-8
and with the GBK codec. -/
structure CsvFile where
  name : String
  readUtf8 : Except ReadError Table
  readGbk : Except ReadError Table

/-- One directory: its path and its `*.xlsx` and `*.csv` globs, in
filesystem enumeration order. -/
structure Directory where
  path : String
  xlsxFiles : List XlsxFile
  csvFiles : List CsvFile

/-- The CSV read with encoding fallback: try UTF-8; on a decode error retry
once with GBK; any other error propagates to the per-file handler. -/
def readCsvWithFallback (f : CsvFile) : Except ReadError Table :=
  match f.readUtf8 with
  | Except.ok t => Except.ok t
  | Except.error ReadError.decodeError => f.readGbk
  | Except.error e => Except.error e

/-- One streamed per-file result (`file_result_ready` payload). -/
structure FileResult where
  directory : String
  filename : String
  monthly_card : String
  amount : ℚ
deriving DecidableEq, Repr

/-- The final summary (`finished_analysis` payload). -/
structure RunSummary where
  total_files : Nat
  total_amount : ℚ
deriving DecidableEq, Repr

/-- The worker's emitted notifications, in order. -/
inductive Event where
  | progress (msg : String)
  | fileResult (r : FileResult)
  | finished (s : RunSummary)
  | errorOccurred (msg : String)
deriving DecidableEq, Repr

/-- The `AnalysisWorker` configuration: directory list, target column and
optional header override, all frozen for the duration of a run. -/
structure Worker where
  directories : List Directory
  amount_column : String
  custom_headers : Option (List String)

/-- The cooperative cancellation flag, observed at its successive polls:
`none` means `stop()` is never called, `some k` means the flag reads true
for the first `k` polls and false from poll `k` on (the flag only ever
flips from true to false). -/
def isRunningAt (cancelAt : Option Nat) (i : Nat) : Bool :=
  match cancelAt with
  | none => true
  | some k => decide (i < k)

/-- The worker's run-local state: events emitted so far, the running grand
total and file count, and the number of flag polls performed. -/
structure RunState where
  events : List Event
  totalAmount : ℚ
  totalFiles : Nat
  polls : Nat
deriving Repr

/-- `if self.custom_headers is not None and len(self.custom_headers) ==
len(df.columns): df.columns = self.custom_headers` — positional header
replacement, applied only on exact length match. -/
def applyHeaderOverride (custom : Option (List String)) (t : Table) : Table :=
  match custom with
  | some hs => if hs.length = t.headers.length then { t with headers := hs } else t
  | none => t

/-- The body shared by the xlsx and csv branches of `run` once a table is
parsed: apply the header override, preprocess, and if the target column is
present emit a `FileResult` and accumulate; otherwise do nothing. -/
def processTable (w : Worker) (dirPath fname : String) (t0 : Table) (st : RunState) : RunState :=
  let t1 := applyHeaderOverride w.custom_headers t0
  let t2 := preprocessDf t1
  if w.amount_column ∈ t2.headers then
    let fileTotal := fileSubtotal t2 w.amount_column
    { st with
        events := st.events ++ [Event.fileResult
          { directory := dirPath, filename := fname,
            monthly_card := extractMonthlyCard fname, amount := fileTotal }],
        totalAmount := st.totalAmount + fileTotal,
        totalFiles := st.totalFiles + 1 }
  else st

/-- One xlsx file inside its `try`: a parse error is swallowed (only
printed) and leaves the state unchanged. -/
def processXlsxFile (w : Worker) (dirPath : String) (f : XlsxFile) (st : RunState) : RunState :=
  match f.parsed with
  | Except.ok t => processTable w dirPath f.name t st
  | Except.error _ => st

/-- One csv file inside its `try`, using the encoding fallback. -/
def processCsvFile (w : Worker) (dirPath : String) (f : CsvFile) (st : RunState) : RunState :=
  match readCsvWithFallback f with
  | Except.ok t => processTable w dirPath f.name t st
  | Except.error _ => st

/-- Consume one read of `self.is_running`. -/
def incPolls (st : RunState) : RunState :=
  { st with polls := st.polls + 1 }

/-- The xlsx loop of `run`: poll the flag before each file and break once
it reads false. -/
def runXlsxFiles (w : Worker) (c : Option Nat) (dirPath : String) :
    List XlsxFile → RunState → RunState
  | [], st => st
  | f :: rest, st =>
      if isRunningAt c st.polls then
        runXlsxFiles w c dirPath rest (processXlsxFile w dirPath f (incPolls st))
      else incPolls st

/-- The csv loop of `run`. -/
def runCsvFiles (w : Worker) (c : Option Nat) (dirPath : String) :
    List CsvFile → RunState → RunState
  | [], st => st
  | f :: rest, st =>
      if isRunningAt c st.polls then
        runCsvFiles w c dirPath rest (processCsvFile w dirPath f (incPolls st))
      else incPolls st

/-- The directory loop of `run`: poll the flag before each directory, emit
the progress notification, then the xlsx files, then the csv files. -/
def runDirs (w : Worker) (c : Option Nat) : List Directory → RunState → RunState
  | [], st => st
  | d :: rest, st =>
      if isRunningAt c st.polls then
        runDirs w c rest
          (runCsvFiles w c d.path d.csvFiles
            (runXlsxFiles w c d.path d.xlsxFiles
              { st with polls := st.polls + 1,
                        events := st.events ++ [Event.progress ("正在分析目录: " ++ d.path)] }))
      else incPolls st

/-- The state at the start of `run`: no events, zero totals, no polls yet. -/
def initState : RunState :=
  { events := [], totalAmount := 0, totalFiles := 0, polls := 0 }

/-- `AnalysisWorker.run`: process all directories and emit the final
summary.  Every modelled operation is total, so the `except` branch that
would emit `error_occurred` is unreachable in the embedding; `finished`
always fires, also after cancellation. -/
def runWorker (w : Worker) (c : Option Nat) : List Event :=
  (runDirs w c w.directories initState).events
    ++ [Event.finished
        { total_files := (runDirs w c w.directories initState).totalFiles,
          total_amount := (runDirs w c w.directories initState).totalAmount }]

/-- The stream of per-file results contained in an event list. -/
def emittedResults (ev : List Event) : List FileResult :=
  ev.filterMap (fun e => match e with
    | Event.fileResult r => some r
    | _ => none)

/-- Terminal notifications: completion or failure. -/
def isTerminalEvent : Event → Bool
  | Event.finished _ => true
  | Event.errorOccurred _ => true
  | _ => false

/-- Sum of the subtotals of a result list. -/
def sumAmounts (rs : List FileResult) : ℚ :=
  (rs.map FileResult.amount).sum

/-- The table as seen by the `amount_column in df.columns` test: override
applied, then filtered. -/
def loadedTable (w : Worker) (t0 : Table) : Table :=
  preprocessDf (applyHeaderOverride w.custom_headers t0)

/-- The result `run` would emit for one successfully parsed table, if any. -/
def tableResultOf (w : Worker) (dirPath fname : String) (t0 : Table) : Option FileResult :=
  if w.amount_column ∈ (loadedTable w t0).headers then
    some { directory := dirPath, filename := fname,
           monthly_card := extractMonthlyCard fname,
           amount := fileSubtotal (loadedTable w t0) w.amount_column }
  else none

/-- The result `run` would emit for one xlsx file, if any. -/
def xlsxResultOf (w : Worker) (dirPath : String) (f : XlsxFile) : Option FileResult :=
  match f.parsed with
  | Except.ok t => tableResultOf w dirPath f.name t
  | Except.error _ => none

/-- The result `run` would emit for one csv file, if any. -/
def csvResultOf (w : Worker) (dirPath : String) (f : CsvFile) : Option FileResult :=
  match readCsvWithFallback f with
  | Except.ok t => tableResultOf w dirPath f.name t
  | Except.error _ => none

/-- All results of one directory, xlsx files before csv files. -/
def dirResults (w : Worker) (d : Directory) : List FileResult :=
  d.xlsxFiles.filterMap (xlsxResultOf w d.path) ++ d.csvFiles.filterMap (csvResultOf w d.path)

/-- The event block of one directory in an uncancelled run. -/
def dirEvents (w : Worker) (d : Directory) : List Event :=
  Event.progress ("正在分析目录: " ++ d.path) :: (dirResults w d).map Event.fileResult

/-- All results of an uncancelled run, in emission order. -/
def allResults (w : Worker) : List FileResult :=
  w.directories.flatMap (dirResults w)

/-- Append a block of events to the run state, accumulating the grand total
and file count over the results it contains, and advance the poll counter. -/
def addEvents (es : List Event) (np : Nat) (st : RunState) : RunState :=
  { events := st.events ++ es,
    totalAmount := st.totalAmount + sumAmounts (emittedResults es),
    totalFiles := st.totalFiles + (emittedResults es).length,
    polls := st.polls + np }

/-- Number of flag polls one directory consumes in an uncancelled run. -/
def dirPolls (d : Directory) : Nat :=
  1 + d.xlsxFiles.length + d.csvFiles.length

/-- Number of flag polls a directory list consumes in an uncancelled run. -/
def dirsPolls (ds : List Directory) : Nat :=
  (ds.map dirPolls).sum

/-- An xlsx file counts exactly when it parses and the target column is
present in its loaded (override-applied, filtered) table. -/
def xlsxHasColumn (w : Worker) (f : XlsxFile) : Bool :=
  match f.parsed with
  | Except.ok t => decide (w.amount_column ∈ (loadedTable w t).headers)
  | Except.error _ => false

/-- A csv file counts exactly when it reads (after the encoding fallback)
and the target column is present in its loaded table. -/
def csvHasColumn (w : Worker) (f : CsvFile) : Bool :=
  match readCsvWithFallback f with
  | Except.ok t => decide (w.amount_column ∈ (loadedTable w t).headers)
  | Except.error _ => false

/-- Number of files of one directory whose target column is present after
loading and filtering. -/
def countedInDir (w : Worker) (d : Directory) : Nat :=
  (d.xlsxFiles.filter (xlsxHasColumn w)).length + (d.csvFiles.filter (csvHasColumn w)).length

/-- Number of files across all directories whose target column is present
after loading and filtering. -/
def totalCounted (w : Worker) : Nat :=
  (w.directories.map (countedInDir w)).sum

/-- A concrete three-column table used in the override examples. -/
def tEx3 : Table :=
  { headers := ["甲", "乙", "丙"],
    rows := [[Cell.text "x", Cell.num 1, Cell.num 2]] }

/-- A marker-free one-column table used in the C10 witness. -/
def tSum : Table :=
  { headers := ["X"], rows := [[Cell.num 3]] }

/-- An xlsx file parsing to `tSum`. -/
def fSum : XlsxFile :=
  { name := "a.xlsx", parsed := Except.ok tSum }

/-- A directory holding only `fSum`. -/
def dSum : Directory :=
  { path := "D1", xlsxFiles := [fSum], csvFiles := [] }

/-- A worker whose target column is itself a summary-marker name assigned
by the override. -/
def wSum : Worker :=
  { directories := [dSum],
    amount_column := "合计",
    custom_headers := some ["合计"] }

/-- A one-column table holding the amount 10, used by the cancellation
example. -/
def t10 : Table :=
  { headers := ["金额"], rows := [[Cell.num 10]] }

/-- The three example files of the cancellation scenario. -/
def exf1 : XlsxFile := { name := "f1.xlsx", parsed := Except.ok t10 }

/-- Second example file. -/
def exf2 : XlsxFile := { name := "f2.xlsx", parsed := Except.ok t10 }

/-- Third example file. -/
def exf3 : XlsxFile := { name := "f3.xlsx", parsed := Except.ok t10 }

/-- First example directory. -/
def exd1 : Directory := { path := "d1", xlsxFiles := [exf1], csvFiles := [] }

/-- Second example directory. -/
def exd2 : Directory := { path := "d2", xlsxFiles := [exf2], csvFiles := [] }

/-- Third example directory. -/
def exd3 : Directory := { path := "d3", xlsxFiles := [exf3], csvFiles := [] }

/-- A worker over three one-file directories, used by the cancellation
example: polls 0 (dir 1) and 1 (file 1) pass, poll 2 (dir 2) fails when the
flag is cleared after two polls. -/
def w3 : Worker :=
  { directories := [exd1, exd2, exd3], amount_column := "金额", custom_headers := none }

/-- A table without the example target column. -/
def tNoCol : Table := { headers := ["甲"], rows := [] }

/-- A target column whose cells are all non-coercible. -/
def tBad : Table := { headers := ["金额"], rows := [[Cell.text "abc"], [Cell.missing]] }

/-- An xlsx file whose parse raises. -/
def fErr : XlsxFile := { name := "bad.xlsx", parsed := Except.error "malformed" }

/-- A csv file whose UTF-8 read raises a decode error and whose GBK read
succeeds. -/
def csvDec : CsvFile :=
  { name := "c.csv", readUtf8 := Except.error ReadError.decodeError,
    readGbk := Except.ok t10 }

/-! ## Theorems -/

theorem digitChar_ascii (n : Nat) : (Nat.digitChar n).val < 128 := by
  rcases n with _|_|_|_|_|_|_|_|_|_|_|_|_|_|_|_|n
  case succ =>
    unfold Nat.digitChar
    repeat rw [if_neg (by omega)]
    decide
  all_goals decide

theorem toDigitsCore_ascii (b fuel n : Nat) (acc : List Char)
    (hacc : ∀ c ∈ acc, c.val < 128) :
    ∀ c ∈ Nat.toDigitsCore b fuel n acc, c.val < 128 := by
  induction fuel generalizing n acc with
  | zero => simpa [Nat.toDigitsCore] using hacc
  | succ fuel ih =>
    intro c hc
    simp only [Nat.toDigitsCore] at hc
    by_cases h : n / b = 0
    · simp only [h, if_pos rfl] at hc
      rcases List.mem_cons.mp hc with h1 | h1
      · exact h1 ▸ digitChar_ascii _
      · exact hacc c h1
    · simp only [if_neg h] at hc
      refine ih _ _ ?_ c hc
      intro d hd
      rcases List.mem_cons.mp hd with h1 | h1
      · exact h1 ▸ digitChar_ascii _
      · exact hacc d h1

theorem natRepr_ascii (n : Nat) : ∀ c ∈ (Nat.repr n).toList, c.val < 128 := by
  intro c hc
  exact toDigitsCore_ascii 10 (n + 1) n [] (by simp) c hc

theorem intToString_ascii (i : Int) : ∀ c ∈ (toString i).toList, c.val < 128 := by
  intro c hc
  cases i with
  | ofNat m => exact natRepr_ascii m c hc
  | negSucc m =>
    have : (toString (Int.negSucc m)).toList = '-' :: (Nat.repr (m + 1)).toList := rfl
    rw [this] at hc
    rcases List.mem_cons.mp hc with h1 | h1
    · simp [h1]
    · exact natRepr_ascii (m + 1) c h1

theorem ratToString_ascii (q : ℚ) : ∀ c ∈ (toString q).toList, c.val < 128 := by
  intro c hc
  have hdef : toString q =
      if q.den = 1 then toString q.num
      else toString "" ++ toString q.num ++ toString "/" ++ toString q.den ++ toString "" := rfl
  rw [hdef] at hc
  by_cases h : q.den = 1
  · rw [if_pos h] at hc
    exact intToString_ascii q.num c hc
  · rw [if_neg h] at hc
    have hsplit :
        (toString "" ++ toString q.num ++ toString "/" ++ toString q.den ++ toString "").toList
          = (toString q.num).toList ++ '/' :: (Nat.repr q.den).toList := by
      show ("" ++ toString q.num ++ "/" ++ Nat.repr q.den ++ "").toList = _
      simp [String.toList, String.data_append]
    rw [hsplit] at hc
    rcases List.mem_append.mp hc with h1 | h1
    · exact intToString_ascii q.num c h1
    · rcases List.mem_cons.mp h1 with h2 | h2
      · simp [h2]
      · exact natRepr_ascii q.den c h2

theorem containsSub_head_mem (p : Char) (ps l : List Char)
    (h : containsSub (p :: ps) l = true) : p ∈ l := by
  induction l with
  | nil => simp [containsSub] at h
  | cons c cs ih =>
    simp only [containsSub, Bool.or_eq_true] at h
    rcases h with h | h
    · have hpc : (p == c) = true := by
        cases hpc : (p == c) with
        | true => rfl
        | false =>
          have : (p :: ps).isPrefixOf (c :: cs) = (p == c && ps.isPrefixOf cs) := rfl
          rw [this, hpc] at h
          simp at h
      exact List.mem_cons.mpr (Or.inl (eq_of_beq hpc))
    · exact List.mem_cons.mpr (Or.inr (ih h))

theorem containsMarker_mem (s : String) (h : containsMarker s = true) :
    '合' ∈ s.toList := by
  simp only [containsMarker, Bool.or_eq_true] at h
  rcases h with h | h
  · exact containsSub_head_mem '合' [' ', '计'] s.toList h
  · exact containsSub_head_mem '合' ['计'] s.toList h

/-- Only textual cells can match the grand-total marker: the decimal string
form of a number and the string `"nan"` consist of ASCII characters, while
the marker is CJK. -/
theorem marker_match_isText (c : Cell) (h : containsMarker (cellToStr c) = true) :
    ∃ s, c = Cell.text s := by
  cases c with
  | num q =>
    have hmem := containsMarker_mem _ h
    have := ratToString_ascii q '合' hmem
    exact absurd this (by decide)
  | text s => exact ⟨s, rfl⟩
  | missing => exact absurd h (by decide)

theorem colIsObject_of_text (rows : List (List Cell)) (j : Nat) (r : List Cell)
    (hr : r ∈ rows) (s : String) (hc : getCell r j = Cell.text s) :
    colIsObject rows j = true := by
  simp only [colIsObject, List.any_eq_true]
  exact ⟨r, hr, by rw [hc]⟩

/-- The dtype guard in the row-filter loop is redundant: filtering an
object column drops exactly the marker rows, and a non-object column has
no marker rows to drop. -/
theorem rowFilterStep_eq_filter (rows : List (List Cell)) (j : Nat) :
    rowFilterStep rows j
      = rows.filter (fun r => !(containsMarker (cellToStr (getCell r j)))) := by
  unfold rowFilterStep
  by_cases hobj : colIsObject rows j = true
  · rw [if_pos hobj]
  · rw [if_neg hobj]
    refine (List.filter_eq_self.mpr ?_).symm
    intro r hr
    cases hm : containsMarker (cellToStr (getCell r j)) with
    | false => rfl
    | true =>
      obtain ⟨s, hs⟩ := marker_match_isText (getCell r j) hm
      exact absurd (colIsObject_of_text rows j r hr s hs) hobj

theorem foldl_rowFilterStep (js : List Nat) (rows : List (List Cell)) :
    js.foldl rowFilterStep rows
      = rows.filter (fun r =>
          js.all (fun j => !(containsMarker (cellToStr (getCell r j))))) := by
  induction js generalizing rows with
  | nil =>
    refine (List.filter_eq_self.mpr ?_).symm
    intro r _
    simp
  | cons j js ih =>
    have step : js.foldl rowFilterStep (rowFilterStep rows j)
        = js.foldl rowFilterStep
            (rows.filter (fun r => !(containsMarker (cellToStr (getCell r j))))) := by
      rw [rowFilterStep_eq_filter]
    calc (j :: js).foldl rowFilterStep rows
        = js.foldl rowFilterStep (rowFilterStep rows j) := rfl
      _ = (rows.filter (fun r => !(containsMarker (cellToStr (getCell r j))))).filter
            (fun r => js.all (fun j => !(containsMarker (cellToStr (getCell r j))))) := by
          rw [step, ih]
      _ = rows.filter (fun r =>
            (j :: js).all (fun j => !(containsMarker (cellToStr (getCell r j))))) := by
          rw [List.filter_filter]
          refine List.filter_congr ?_
          intro r _
          simp [List.all_cons, Bool.and_comm]

theorem all_not_eq_not_any (js : List Nat) (m c : Nat → Bool)
    (h : ∀ j ∈ js, m j = true → c j = true) :
    js.all (fun j => !(m j)) = !(js.any (fun j => c j && m j)) := by
  induction js with
  | nil => rfl
  | cons j js ih =>
    have hj := h j (List.mem_cons_self j js)
    have ih2 := ih (fun j hmem => h j (List.mem_cons_of_mem _ hmem))
    simp only [List.all_cons, List.any_cons, Bool.not_or, ih2]
    cases hm : m j with
    | false => simp [hm]
    | true => simp [hm, hj hm]

/-- The sequential column-by-column row filter of `_preprocess_df` computes
the one-shot filter described by the spec. -/
theorem preprocessDf_eq_spec (t : Table) : preprocessDf t = preprocessSpecDf t := by
  unfold preprocessDf preprocessSpecDf
  refine congrArg _ ?_
  rw [foldl_rowFilterStep]
  refine List.filter_congr ?_
  intro r hr
  refine all_not_eq_not_any _ _ _ ?_
  intro j _ hm
  obtain ⟨s, hs⟩ := marker_match_isText (getCell r j) hm
  exact colIsObject_of_text _ j r hr s hs

theorem dropRowCells_allTrue (keep : List Bool) (r : List Cell)
    (h : ∀ b ∈ keep, b = true) : dropRowCells keep r = r.take keep.length := by
  induction keep generalizing r with
  | nil => simp [dropRowCells]
  | cons b bs ih =>
    cases r with
    | nil => simp [dropRowCells]
    | cons x xs =>
      have hb := h b (List.mem_cons_self b bs)
      have ih2 := ih xs (fun b hmem => h b (List.mem_cons_of_mem _ hmem))
      simp only [dropRowCells, List.zip_cons_cons, List.filter_cons, hb, List.take_succ_cons]
      simp only [dropRowCells] at ih2
      simp [ih2]

theorem dropRowCells_length_le (keep : List Bool) (r : List Cell) :
    (dropRowCells keep r).length ≤ (keep.filter (fun b => b)).length := by
  induction keep generalizing r with
  | nil => simp [dropRowCells]
  | cons b bs ih =>
    cases r with
    | nil => simp [dropRowCells]
    | cons x xs =>
      have ih2 := ih xs
      simp only [dropRowCells, List.zip_cons_cons, List.filter_cons] at ih2 ⊢
      cases b with
      | false => simpa using Nat.le_trans ih2 (by simp)
      | true => simpa using ih2

theorem dropSummaryCols_row_length (t : Table) (r : List Cell)
    (hr : r ∈ (dropSummaryCols t).rows) :
    r.length ≤ (dropSummaryCols t).headers.length := by
  simp only [dropSummaryCols, List.mem_map] at hr
  obtain ⟨r0, _, hr0⟩ := hr
  rw [← hr0]
  refine Nat.le_trans (dropRowCells_length_le _ r0) ?_
  simp only [dropSummaryCols, List.filter_map]
  refine Nat.le_of_eq ?_
  rw [List.length_map]
  exact congrArg List.length (List.filter_congr (fun a _ => rfl))

theorem dropSummaryCols_idem_on (t : Table) (u : Table)
    (hh : u.headers = (dropSummaryCols t).headers)
    (hr : ∀ r ∈ u.rows, r ∈ (dropSummaryCols t).rows) :
    dropSummaryCols u = u := by
  have hkeep : ∀ b ∈ u.headers.map (fun h => !(isSummaryName h)), b = true := by
    intro b hb
    simp only [List.mem_map] at hb
    obtain ⟨h, hmem, hbe⟩ := hb
    rw [hh] at hmem
    simp only [dropSummaryCols, List.mem_filter] at hmem
    rw [← hbe, hmem.2]
  have hhead : u.headers.filter (fun h => !(isSummaryName h)) = u.headers := by
    refine List.filter_eq_self.mpr ?_
    intro h hmem
    rw [hh] at hmem
    simp only [dropSummaryCols, List.mem_filter] at hmem
    exact hmem.2
  have hrow : ∀ r ∈ u.rows,
      dropRowCells (u.headers.map (fun h => !(isSummaryName h))) r = r := by
    intro r hmem
    rw [dropRowCells_allTrue _ r hkeep]
    refine List.take_of_length_le ?_
    have := dropSummaryCols_row_length t r (hr r hmem)
    simpa [hh] using this
  cases u with
  | mk hs rows =>
    simp only [dropSummaryCols, Table.mk.injEq]
    constructor
    · exact hhead
    · exact List.map_congr_left (by simpa using hrow) |>.trans (List.map_id rows)

theorem mem_preprocessSpec_rows (t : Table) (r : List Cell)
    (hr : r ∈ (preprocessSpecDf t).rows) :
    r ∈ (dropSummaryCols t).rows ∧
      (!((List.range (dropSummaryCols t).headers.length).any (fun j =>
        colIsObject (dropSummaryCols t).rows j
          && containsMarker (cellToStr (getCell r j))))) = true := by
  simpa [preprocessSpecDf] using List.mem_filter.mp hr

theorem preprocessSpecDf_idem (t : Table) :
    preprocessSpecDf (preprocessSpecDf t) = preprocessSpecDf t := by
  have hdrop : dropSummaryCols (preprocessSpecDf t) = preprocessSpecDf t := by
    refine dropSummaryCols_idem_on t (preprocessSpecDf t) rfl ?_
    intro r hr
    exact (mem_preprocessSpec_rows t r hr).1
  show { headers := (dropSummaryCols (preprocessSpecDf t)).headers,
         rows := (dropSummaryCols (preprocessSpecDf t)).rows.filter _ } = preprocessSpecDf t
  rw [hdrop]
  have hrows : (preprocessSpecDf t).rows.filter (fun r =>
      !((List.range (preprocessSpecDf t).headers.length).any (fun j =>
        colIsObject (preprocessSpecDf t).rows j
          && containsMarker (cellToStr (getCell r j))))) = (preprocessSpecDf t).rows := by
    refine List.filter_eq_self.mpr ?_
    intro r hr
    obtain ⟨hmem1, hpred⟩ := mem_preprocessSpec_rows t r hr
    simp only [Bool.not_eq_true', List.any_eq_false] at hpred ⊢
    intro j hj
    cases hm : containsMarker (cellToStr (getCell r j)) with
    | false => simp
    | true =>
      obtain ⟨s, hs⟩ := marker_match_isText (getCell r j) hm
      have hobj : colIsObject (dropSummaryCols t).rows j = true :=
        colIsObject_of_text _ j r hmem1 s hs
      have hjr : j ∈ List.range (dropSummaryCols t).headers.length := by
        simpa [preprocessSpecDf] using hj
      have hfalse := hpred j hjr
      rw [hobj, hm] at hfalse
      exact absurd hfalse (by simp)
  exact congrArg _ hrows

/-- Claim C3: `_preprocess_df` drops exactly the columns whose trimmed name
equals `合计` or `合 计`, and then drops exactly those rows in which at least
one object-typed column's stringified cell contains a grand-total marker as
a substring (the one-shot `preprocessSpecDf`, which consults only
object-typed columns, so rows are never dropped because of numeric-typed
columns); the relative order of the remaining columns and rows is preserved
(sublists of the originals). -/
theorem claim_C3_filter_characterization (t : Table) :
    (preprocessDf t).headers = t.headers.filter (fun h => !(isSummaryName h))
      ∧ preprocessDf t = preprocessSpecDf t
      ∧ (preprocessDf t).rows
          = (dropSummaryCols t).rows.filter (fun r =>
              !((List.range (dropSummaryCols t).headers.length).any (fun j =>
                colIsObject (dropSummaryCols t).rows j
                  && containsMarker (cellToStr (getCell r j)))))
      ∧ List.Sublist (preprocessDf t).headers t.headers
      ∧ List.Sublist (preprocessDf t).rows (dropSummaryCols t).rows := by
  refine ⟨rfl, preprocessDf_eq_spec t, ?_, ?_, ?_⟩
  · rw [preprocessDf_eq_spec t]
    rfl
  · exact List.filter_sublist t.headers
  · rw [preprocessDf_eq_spec t]
    exact List.filter_sublist _

/-- Claim C4: the summary-row/column filter is idempotent — re-filtering an
already filtered table is a no-op. -/
theorem claim_C4_filter_idempotent (t : Table) :
    preprocessDf (preprocessDf t) = preprocessDf t := by
  rw [preprocessDf_eq_spec, preprocessDf_eq_spec t, preprocessSpecDf_idem,
    ← preprocessDf_eq_spec]

theorem findWindow_none_iff (cs : List Char) :
    findWindow cs = none ↔ ∀ i, checkWin (cs.drop i) = false := by
  induction cs with
  | nil =>
    simp [findWindow, checkWin]
  | cons c cs ih =>
    simp only [findWindow]
    by_cases h : checkWin (c :: cs) = true
    · rw [if_pos h]
      constructor
      · intro hcontra
        exact absurd hcontra (by simp)
      · intro hall
        have h0 := hall 0
        rw [List.drop_zero, h] at h0
        exact absurd h0 (by simp)
    · rw [if_neg h]
      rw [ih]
      constructor
      · intro hall i
        cases i with
        | zero => simpa using (Bool.not_eq_true _).mp h
        | succ i => simpa using hall i
      · intro hall i
        simpa using hall (i + 1)

theorem findWindow_first (cs : List Char) (i : Nat)
    (hbefore : ∀ j < i, checkWin (cs.drop j) = false)
    (hi : checkWin (cs.drop i) = true) :
    findWindow cs = some ((cs.drop i).take 10) := by
  induction cs generalizing i with
  | nil =>
    rw [List.drop_nil] at hi
    simp [checkWin] at hi
  | cons c cs ih =>
    cases i with
    | zero =>
      rw [List.drop_zero] at hi
      simp [findWindow, hi]
    | succ i =>
      have h0 : checkWin (c :: cs) = false := by
        have := hbefore 0 (Nat.succ_pos i)
        simpa using this
      rw [show findWindow (c :: cs) = findWindow cs by simp [findWindow, h0]]
      have hdrop : (c :: cs).drop (i + 1) = cs.drop i := rfl
      rw [hdrop] at hi
      refine ih i ?_ hi
      intro j hj
      have := hbefore (j + 1) (Nat.succ_lt_succ hj)
      simpa using this

theorem findWindow_some_length (cs : List Char) (w : List Char)
    (h : findWindow cs = some w) : w.length = 10 := by
  induction cs with
  | nil => simp [findWindow] at h
  | cons c cs ih =>
    simp only [findWindow] at h
    by_cases hw : checkWin (c :: cs) = true
    · rw [if_pos hw] at h
      cases h
      simp only [checkWin, Bool.and_eq_true, beq_iff_eq] at hw
      exact hw.1
    · rw [if_neg hw] at h
      exact ih h

/-- Claim C5: the derived per-file identifier is the first (leftmost) run of
ten consecutive decimal digits in the file name, and the empty string when
no ten-digit window exists; in particular a file name whose only digits are
the literal run `2024010112` yields `"2024010112"`, and a file name with no
ten-digit run yields `""`. -/
theorem claim_C5_identifier (s : String) :
    (extractMonthlyCard s = "" ↔ ∀ i, checkWin (s.toList.drop i) = false)
      ∧ (∀ i, (∀ j < i, checkWin (s.toList.drop j) = false) →
          checkWin (s.toList.drop i) = true →
          extractMonthlyCard s = ((s.toList.drop i).take 10).asString)
      ∧ extractMonthlyCard "CSV账单2024010112.xlsx" = "2024010112"
      ∧ extractMonthlyCard "report.xlsx" = "" := by
  refine ⟨?_, ?_, by decide, by decide⟩
  · rw [← findWindow_none_iff]
    unfold extractMonthlyCard
    cases hf : findWindow s.toList with
    | none => simp
    | some w =>
      simp only [reduceCtorEq, iff_false]
      intro hcontra
      have hlen := findWindow_some_length _ _ hf
      have : w = [] := congrArg String.data hcontra
      rw [this] at hlen
      simp at hlen
  · intro i hbefore hi
    unfold extractMonthlyCard
    rw [findWindow_first s.toList i hbefore hi]

theorem emittedResults_nil : emittedResults [] = [] := rfl

theorem emittedResults_append (es1 es2 : List Event) :
    emittedResults (es1 ++ es2) = emittedResults es1 ++ emittedResults es2 :=
  List.filterMap_append es1 es2 _

theorem emittedResults_map_fileResult (rs : List FileResult) :
    emittedResults (rs.map Event.fileResult) = rs := by
  induction rs with
  | nil => rfl
  | cons r rs ih => simp [emittedResults, List.filterMap_cons] at ih ⊢; exact ih

theorem emittedResults_progress_cons (m : String) (es : List Event) :
    emittedResults (Event.progress m :: es) = emittedResults es := by
  simp [emittedResults, List.filterMap_cons]

theorem sumAmounts_nil : sumAmounts [] = 0 := rfl

theorem sumAmounts_append (rs1 rs2 : List FileResult) :
    sumAmounts (rs1 ++ rs2) = sumAmounts rs1 + sumAmounts rs2 := by
  simp [sumAmounts]

theorem addEvents_comp (es1 es2 : List Event) (p1 p2 : Nat) (st : RunState) :
    addEvents es2 p2 (addEvents es1 p1 st) = addEvents (es1 ++ es2) (p1 + p2) st := by
  simp [addEvents, emittedResults_append, sumAmounts_append, List.append_assoc,
    add_assoc]

theorem incPolls_eq (st : RunState) : incPolls st = addEvents [] 1 st := by
  cases st
  simp [incPolls, addEvents, emittedResults_nil, sumAmounts_nil]

theorem processTable_none (w : Worker) (p n : String) (t : Table) (st : RunState)
    (h : tableResultOf w p n t = none) : processTable w p n t st = st := by
  unfold tableResultOf at h
  by_cases hm : w.amount_column ∈ (loadedTable w t).headers
  · rw [if_pos hm] at h
    exact absurd h (by simp)
  · have hm2 : ¬(w.amount_column ∈ (preprocessDf (applyHeaderOverride w.custom_headers t)).headers) := hm
    simp only [processTable]
    rw [if_neg hm2]

theorem processTable_some (w : Worker) (p n : String) (t : Table) (st : RunState)
    (r : FileResult) (h : tableResultOf w p n t = some r) :
    processTable w p n t st = addEvents [Event.fileResult r] 0 st := by
  unfold tableResultOf at h
  by_cases hm : w.amount_column ∈ (loadedTable w t).headers
  · rw [if_pos hm] at h
    have hm2 : w.amount_column ∈ (preprocessDf (applyHeaderOverride w.custom_headers t)).headers := hm
    simp only [processTable]
    rw [if_pos hm2]
    cases st
    simp only [Option.some.injEq] at h
    simp [addEvents, emittedResults, List.filterMap_cons, sumAmounts, ← h]
    rfl
  · rw [if_neg hm] at h
    exact absurd h (by simp)

theorem processXlsxFile_eq (w : Worker) (p : String) (f : XlsxFile) (st : RunState) :
    processXlsxFile w p f st
      = addEvents ((xlsxResultOf w p f).toList.map Event.fileResult) 0 st := by
  cases hp : f.parsed with
  | error e =>
    simp only [processXlsxFile, xlsxResultOf, hp]
    cases st
    simp [addEvents, emittedResults_nil, sumAmounts_nil]
  | ok t =>
    cases hres : tableResultOf w p f.name t with
    | none =>
      simp only [processXlsxFile, xlsxResultOf, hp, hres]
      rw [processTable_none w p f.name t st hres]
      cases st
      simp [addEvents, emittedResults_nil, sumAmounts_nil]
    | some r =>
      simp only [processXlsxFile, xlsxResultOf, hp, hres]
      rw [processTable_some w p f.name t st r hres]
      rfl

theorem processCsvFile_eq (w : Worker) (p : String) (f : CsvFile) (st : RunState) :
    processCsvFile w p f st
      = addEvents ((csvResultOf w p f).toList.map Event.fileResult) 0 st := by
  cases hp : readCsvWithFallback f with
  | error e =>
    simp only [processCsvFile, csvResultOf, hp]
    cases st
    simp [addEvents, emittedResults_nil, sumAmounts_nil]
  | ok t =>
    cases hres : tableResultOf w p f.name t with
    | none =>
      simp only [processCsvFile, csvResultOf, hp, hres]
      rw [processTable_none w p f.name t st hres]
      cases st
      simp [addEvents, emittedResults_nil, sumAmounts_nil]
    | some r =>
      simp only [processCsvFile, csvResultOf, hp, hres]
      rw [processTable_some w p f.name t st r hres]
      rfl

theorem addEvents_nil (st : RunState) : addEvents [] 0 st = st := by
  cases st
  simp [addEvents, emittedResults_nil, sumAmounts_nil]

theorem toList_append_filterMap {α β : Type} (g : α → Option β) (f : α) (rest : List α) :
    (g f).toList ++ rest.filterMap g = (f :: rest).filterMap g := by
  cases h : g f <;> simp [List.filterMap_cons, h]

theorem runXlsxFiles_none (w : Worker) (p : String) (fs : List XlsxFile) (st : RunState) :
    runXlsxFiles w none p fs st
      = addEvents ((fs.filterMap (xlsxResultOf w p)).map Event.fileResult) fs.length st := by
  induction fs generalizing st with
  | nil => simp [runXlsxFiles, addEvents_nil]
  | cons f rest ih =>
    have hgate : isRunningAt none st.polls = true := rfl
    rw [show runXlsxFiles w none p (f :: rest) st
        = runXlsxFiles w none p rest (processXlsxFile w p f (incPolls st)) by
      simp only [runXlsxFiles, hgate, if_true]]
    rw [incPolls_eq, processXlsxFile_eq, addEvents_comp, ih, addEvents_comp]
    have hE : ([] ++ (xlsxResultOf w p f).toList.map Event.fileResult)
        ++ (rest.filterMap (xlsxResultOf w p)).map Event.fileResult
        = ((f :: rest).filterMap (xlsxResultOf w p)).map Event.fileResult := by
      rw [List.nil_append, ← List.map_append, toList_append_filterMap]
    have hP : 1 + 0 + rest.length = (f :: rest).length := by
      simp [List.length_cons]
      omega
    rw [hE, hP]

theorem runCsvFiles_none (w : Worker) (p : String) (fs : List CsvFile) (st : RunState) :
    runCsvFiles w none p fs st
      = addEvents ((fs.filterMap (csvResultOf w p)).map Event.fileResult) fs.length st := by
  induction fs generalizing st with
  | nil => simp [runCsvFiles, addEvents_nil]
  | cons f rest ih =>
    have hgate : isRunningAt none st.polls = true := rfl
    rw [show runCsvFiles w none p (f :: rest) st
        = runCsvFiles w none p rest (processCsvFile w p f (incPolls st)) by
      simp only [runCsvFiles, hgate, if_true]]
    rw [incPolls_eq, processCsvFile_eq, addEvents_comp, ih, addEvents_comp]
    have hE : ([] ++ (csvResultOf w p f).toList.map Event.fileResult)
        ++ (rest.filterMap (csvResultOf w p)).map Event.fileResult
        = ((f :: rest).filterMap (csvResultOf w p)).map Event.fileResult := by
      rw [List.nil_append, ← List.map_append, toList_append_filterMap]
    have hP : 1 + 0 + rest.length = (f :: rest).length := by
      simp [List.length_cons]
      omega
    rw [hE, hP]

theorem progressState_eq (st : RunState) (m : String) :
    ({ st with polls := st.polls + 1, events := st.events ++ [Event.progress m] } : RunState)
      = addEvents [Event.progress m] 1 st := by
  cases st
  simp [addEvents, emittedResults, List.filterMap_cons, sumAmounts_nil]

theorem runDirs_none (w : Worker) (ds : List Directory) (st : RunState) :
    runDirs w none ds st = addEvents (ds.flatMap (dirEvents w)) (dirsPolls ds) st := by
  induction ds generalizing st with
  | nil => simp [runDirs, dirsPolls, addEvents_nil]
  | cons d rest ih =>
    have hgate : isRunningAt none st.polls = true := rfl
    rw [show runDirs w none (d :: rest) st
        = runDirs w none rest
            (runCsvFiles w none d.path d.csvFiles
              (runXlsxFiles w none d.path d.xlsxFiles
                { st with polls := st.polls + 1,
                          events := st.events ++ [Event.progress ("正在分析目录: " ++ d.path)] })) by
      simp only [runDirs, hgate, if_true]]
    rw [progressState_eq, runXlsxFiles_none, addEvents_comp, runCsvFiles_none,
      addEvents_comp, ih, addEvents_comp]
    have hE : (([Event.progress ("正在分析目录: " ++ d.path)]
          ++ (d.xlsxFiles.filterMap (xlsxResultOf w d.path)).map Event.fileResult)
          ++ (d.csvFiles.filterMap (csvResultOf w d.path)).map Event.fileResult)
          ++ rest.flatMap (dirEvents w)
        = (d :: rest).flatMap (dirEvents w) := by
      rw [List.flatMap_cons]
      simp [dirEvents, dirResults, List.map_append]
    have hP : 1 + d.xlsxFiles.length + d.csvFiles.length + dirsPolls rest
        = dirsPolls (d :: rest) := by
      simp [dirsPolls, dirPolls, List.map_cons, List.sum_cons]
    rw [hE, hP]

theorem emittedResults_dirEvents (w : Worker) (d : Directory) :
    emittedResults (dirEvents w d) = dirResults w d := by
  rw [dirEvents, emittedResults_progress_cons, emittedResults_map_fileResult]

theorem emittedResults_flatMap (w : Worker) (ds : List Directory) :
    emittedResults (ds.flatMap (dirEvents w)) = ds.flatMap (dirResults w) := by
  induction ds with
  | nil => rfl
  | cons d rest ih =>
    rw [List.flatMap_cons, List.flatMap_cons, emittedResults_append,
      emittedResults_dirEvents, ih]

/-- Closed form of an uncancelled run: the per-directory event blocks in
order, and a final `finished` summary over all emitted results. -/
theorem runWorker_none (w : Worker) :
    runWorker w none
      = (w.directories.flatMap (dirEvents w))
        ++ [Event.finished { total_files := (allResults w).length,
                             total_amount := sumAmounts (allResults w) }] := by
  unfold runWorker
  rw [runDirs_none]
  simp [addEvents, initState, emittedResults_flatMap, allResults, sumAmounts_nil,
    emittedResults_nil]

theorem length_filterMap_eq_filter_isSome {α β : Type} (g : α → Option β) (fs : List α) :
    (fs.filterMap g).length = (fs.filter (fun f => (g f).isSome)).length := by
  induction fs with
  | nil => rfl
  | cons f rest ih =>
    cases h : g f <;> simp [List.filterMap_cons, List.filter_cons, h, ih]

theorem xlsxResultOf_isSome (w : Worker) (p : String) (f : XlsxFile) :
    (xlsxResultOf w p f).isSome = xlsxHasColumn w f := by
  unfold xlsxResultOf xlsxHasColumn
  cases f.parsed with
  | error e => rfl
  | ok t =>
    unfold tableResultOf
    by_cases hm : w.amount_column ∈ (loadedTable w t).headers
    · simp [hm]
    · simp [hm]

theorem csvResultOf_isSome (w : Worker) (p : String) (f : CsvFile) :
    (csvResultOf w p f).isSome = csvHasColumn w f := by
  unfold csvResultOf csvHasColumn
  cases readCsvWithFallback f with
  | error e => rfl
  | ok t =>
    unfold tableResultOf
    by_cases hm : w.amount_column ∈ (loadedTable w t).headers
    · simp [hm]
    · simp [hm]

theorem dirResults_length (w : Worker) (d : Directory) :
    (dirResults w d).length = countedInDir w d := by
  unfold dirResults countedInDir
  rw [List.length_append, length_filterMap_eq_filter_isSome, length_filterMap_eq_filter_isSome]
  rw [List.filter_congr (fun f _ => xlsxResultOf_isSome w d.path f),
    List.filter_congr (fun f _ => csvResultOf_isSome w d.path f)]

theorem allResults_length (w : Worker) : (allResults w).length = totalCounted w := by
  unfold allResults totalCounted
  induction w.directories with
  | nil => rfl
  | cons d rest ih =>
    rw [List.flatMap_cons, List.length_append, List.map_cons, List.sum_cons,
      dirResults_length, ih]

theorem emittedResults_runWorker_none (w : Worker) :
    emittedResults (runWorker w none) = allResults w := by
  rw [runWorker_none, emittedResults_append, emittedResults_flatMap]
  simp [emittedResults, List.filterMap_cons, allResults]

/-- Claim C1: an uncancelled run emits exactly one `FileResult` per file
whose target column is present after loading and filtering (M files), the
final summary counts exactly those M files, its grand total is the
arithmetic sum of the emitted subtotals, and a file whose target column is
absent after filtering is skipped silently (state unchanged, nothing
emitted, nothing counted). -/
theorem claim_C1_run_totals (w : Worker) :
    (emittedResults (runWorker w none)).length = totalCounted w
      ∧ (runWorker w none).getLast? = some (Event.finished
          { total_files := totalCounted w,
            total_amount := sumAmounts (emittedResults (runWorker w none)) })
      ∧ (∀ p n t st, w.amount_column ∉ (loadedTable w t).headers →
          processTable w p n t st = st) := by
  refine ⟨?_, ?_, ?_⟩
  · rw [emittedResults_runWorker_none, allResults_length]
  · rw [emittedResults_runWorker_none, runWorker_none, List.getLast?_concat,
      allResults_length]
  · intro p n t st hm
    refine processTable_none w p n t st ?_
    unfold tableResultOf
    rw [if_neg hm]

theorem seriesSum_foldl_acc (l : List Cell) (a : ℚ) :
    l.foldl (fun acc c => match c with
      | Cell.num q => acc + q
      | _ => acc) a = a + seriesSum l := by
  induction l generalizing a with
  | nil => simp [seriesSum]
  | cons x xs ih =>
    rw [show seriesSum (x :: xs) = xs.foldl (fun acc c => match c with
        | Cell.num q => acc + q
        | _ => acc) ((0 : ℚ) + match x with
        | Cell.num q => (0 : ℚ) + q
        | Cell.text _ => 0
        | Cell.missing => 0) from by cases x <;> simp [seriesSum]]
    rw [List.foldl_cons, ih, ih]
    cases x with
    | num q => simp only []; ring
    | text s => simp
    | missing => simp

theorem seriesSum_map_coerce (l : List Cell) :
    seriesSum (l.map coerceCell) = (l.filterMap toNumeric).sum := by
  induction l with
  | nil => rfl
  | cons c cs ih =>
    rw [List.map_cons, List.filterMap_cons]
    cases hn : toNumeric c with
    | none =>
      rw [show coerceCell c = Cell.missing from by unfold coerceCell; rw [hn]]
      rw [show seriesSum (Cell.missing :: cs.map coerceCell)
          = seriesSum (cs.map coerceCell) from by
        unfold seriesSum
        rw [List.foldl_cons]]
      exact ih
    | some q =>
      rw [show coerceCell c = Cell.num q from by unfold coerceCell; rw [hn]]
      unfold seriesSum
      rw [List.foldl_cons, seriesSum_foldl_acc, List.sum_cons, ← ih]
      unfold seriesSum
      ring

/-- Claim C2: the per-file subtotal is the sum of exactly the
numeric-coercible cells of the target column; non-coercible cells
contribute zero (and abort nothing, the fold being total), and an empty or
wholly non-coercible column yields subtotal zero. -/
theorem claim_C2_subtotal (t : Table) (col : String) :
    fileSubtotal t col = ((getColumn t col).filterMap toNumeric).sum
      ∧ (getColumn t col = [] → fileSubtotal t col = 0)
      ∧ ((∀ c ∈ getColumn t col, toNumeric c = none) → fileSubtotal t col = 0) := by
  refine ⟨seriesSum_map_coerce (getColumn t col), ?_, ?_⟩
  · intro h
    rw [fileSubtotal, h]
    rfl
  · intro h
    rw [fileSubtotal, seriesSum_map_coerce, List.filterMap_eq_nil_iff.mpr h]
    rfl

/-- Claim C6: the header override replaces the parsed headers positionally
exactly when it is provided and its length equals the column count;
otherwise the original headers are kept.  A length-3 override on a 3-column
file yields exactly those columns in order; a length-2 override on a
3-column file is ignored. -/
theorem claim_C6_header_override :
    (∀ (hs : List String) (t : Table), hs.length = t.headers.length →
        applyHeaderOverride (some hs) t = { t with headers := hs })
      ∧ (∀ (hs : List String) (t : Table), hs.length ≠ t.headers.length →
        applyHeaderOverride (some hs) t = t)
      ∧ (∀ t : Table, applyHeaderOverride none t = t)
      ∧ (applyHeaderOverride (some ["A", "B", "C"]) tEx3).headers = ["A", "B", "C"]
      ∧ applyHeaderOverride (some ["A", "B"]) tEx3 = tEx3 := by
  refine ⟨?_, ?_, fun t => rfl, by decide, by decide⟩
  · intro hs t h
    simp only [applyHeaderOverride]
    rw [if_pos h]
  · intro hs t h
    simp only [applyHeaderOverride]
    rw [if_neg h]

/-- Claim C6 witness: the override laws applied at the concrete 3-column
table. -/
theorem claim_C6_header_override_witness :
    (["A", "B", "C"].length = tEx3.headers.length
      ∧ applyHeaderOverride (some ["A", "B", "C"]) tEx3
          = { tEx3 with headers := ["A", "B", "C"] })
      ∧ (["A", "B"].length ≠ tEx3.headers.length
      ∧ applyHeaderOverride (some ["A", "B"]) tEx3 = tEx3) :=
  ⟨⟨by decide, claim_C6_header_override.1 ["A", "B", "C"] tEx3 (by decide)⟩,
   ⟨by decide, claim_C6_header_override.2.1 ["A", "B"] tEx3 (by decide)⟩⟩

theorem loadedTable_headers (w : Worker) (t : Table) :
    (loadedTable w t).headers
      = (applyHeaderOverride w.custom_headers t).headers.filter
          (fun h => !(isSummaryName h)) := rfl

theorem summary_column_never_loaded (w : Worker) (t : Table) (h : String)
    (hsum : isSummaryName h = true) : h ∉ (loadedTable w t).headers := by
  rw [loadedTable_headers]
  intro hmem
  have := (List.mem_filter.mp hmem).2
  rw [hsum] at this
  exact absurd this (by simp)

theorem tableResultOf_summary_none (w : Worker) (p n : String) (t : Table)
    (hsum : isSummaryName w.amount_column = true) : tableResultOf w p n t = none := by
  unfold tableResultOf
  rw [if_neg (summary_column_never_loaded w t w.amount_column hsum)]

theorem allResults_summary_nil (w : Worker)
    (hsum : isSummaryName w.amount_column = true) : allResults w = [] := by
  unfold allResults
  refine List.flatMap_eq_nil_iff.mpr ?_
  intro d _
  unfold dirResults
  rw [List.filterMap_eq_nil_iff.mpr, List.filterMap_eq_nil_iff.mpr, List.append_nil]
  · intro f _
    unfold csvResultOf
    cases readCsvWithFallback f with
    | error e => rfl
    | ok t => exact tableResultOf_summary_none w d.path f.name t hsum
  · intro f _
    unfold xlsxResultOf
    cases f.parsed with
    | error e => rfl
    | ok t => exact tableResultOf_summary_none w d.path f.name t hsum

/-- Claim C10: the header override is applied before the summary filter, so
an override name equal to `合计`/`合 计` is dropped from every loaded table
even when the raw file contained no marker; and if the target column is
such a name, every file is skipped silently — nothing emitted, nothing
counted, and the run completes with an all-zero summary. -/
theorem claim_C10_override_summary_interaction :
    (∀ (w : Worker) (t : Table) (hs : List String), w.custom_headers = some hs →
        hs.length = t.headers.length →
        ∀ h ∈ hs, isSummaryName h = true → h ∉ (loadedTable w t).headers)
      ∧ (∀ w : Worker, isSummaryName w.amount_column = true →
          (∀ p n t st, processTable w p n t st = st)
            ∧ emittedResults (runWorker w none) = []
            ∧ (runWorker w none).getLast?
                = some (Event.finished { total_files := 0, total_amount := 0 })) := by
  constructor
  · intro w t hs _ _ h _ hsum
    exact summary_column_never_loaded w t h hsum
  · intro w hsum
    refine ⟨?_, ?_, ?_⟩
    · intro p n t st
      exact processTable_none w p n t st (tableResultOf_summary_none w p n t hsum)
    · rw [emittedResults_runWorker_none, allResults_summary_nil w hsum]
    · rw [runWorker_none, List.getLast?_concat, allResults_summary_nil w hsum]
      rfl

/-- Claim C10 witness: with override name `合计` on a marker-free one-column
file, the column is dropped and the run emits nothing. -/
theorem claim_C10_override_summary_interaction_witness :
    ("合计" ∉ (loadedTable wSum tSum).headers)
      ∧ emittedResults (runWorker wSum none) = [] :=
  ⟨claim_C10_override_summary_interaction.1 wSum tSum ["合计"] rfl (by decide) "合计"
      (by decide) (by decide),
   (claim_C10_override_summary_interaction.2 wSum (by decide)).2.1⟩

theorem toList_map_fileResult_nonterminal (o : Option FileResult) :
    ∀ e ∈ o.toList.map Event.fileResult, isTerminalEvent e = false := by
  cases o with
  | none => intro e he; simp at he
  | some r =>
    intro e he
    simp only [Option.toList, List.map_cons, List.map_nil, List.mem_singleton] at he
    rw [he]
    rfl

theorem runXlsxFiles_shape (w : Worker) (c : Option Nat) (p : String)
    (fs : List XlsxFile) (st : RunState) :
    ∃ es np, runXlsxFiles w c p fs st = addEvents es np st
      ∧ ∀ e ∈ es, isTerminalEvent e = false := by
  induction fs generalizing st with
  | nil => exact ⟨[], 0, (addEvents_nil st).symm, by simp⟩
  | cons f rest ih =>
    cases hgate : isRunningAt c st.polls with
    | false =>
      refine ⟨[], 1, ?_, by simp⟩
      rw [show runXlsxFiles w c p (f :: rest) st = incPolls st by
        simp only [runXlsxFiles, hgate, Bool.false_eq_true, if_false]]
      rw [incPolls_eq]
    | true =>
      obtain ⟨es, np, heq, hterm⟩ := ih (processXlsxFile w p f (incPolls st))
      refine ⟨(xlsxResultOf w p f).toList.map Event.fileResult ++ es, 1 + np, ?_, ?_⟩
      · rw [show runXlsxFiles w c p (f :: rest) st
            = runXlsxFiles w c p rest (processXlsxFile w p f (incPolls st)) by
          simp only [runXlsxFiles, hgate, if_true]]
        rw [heq, incPolls_eq, processXlsxFile_eq, addEvents_comp, addEvents_comp,
          List.nil_append, Nat.zero_add]
      · intro e he
        rcases List.mem_append.mp he with h1 | h1
        · exact toList_map_fileResult_nonterminal _ e h1
        · exact hterm e h1

theorem runCsvFiles_shape (w : Worker) (c : Option Nat) (p : String)
    (fs : List CsvFile) (st : RunState) :
    ∃ es np, runCsvFiles w c p fs st = addEvents es np st
      ∧ ∀ e ∈ es, isTerminalEvent e = false := by
  induction fs generalizing st with
  | nil => exact ⟨[], 0, (addEvents_nil st).symm, by simp⟩
  | cons f rest ih =>
    cases hgate : isRunningAt c st.polls with
    | false =>
      refine ⟨[], 1, ?_, by simp⟩
      rw [show runCsvFiles w c p (f :: rest) st = incPolls st by
        simp only [runCsvFiles, hgate, Bool.false_eq_true, if_false]]
      rw [incPolls_eq]
    | true =>
      obtain ⟨es, np, heq, hterm⟩ := ih (processCsvFile w p f (incPolls st))
      refine ⟨(csvResultOf w p f).toList.map Event.fileResult ++ es, 1 + np, ?_, ?_⟩
      · rw [show runCsvFiles w c p (f :: rest) st
            = runCsvFiles w c p rest (processCsvFile w p f (incPolls st)) by
          simp only [runCsvFiles, hgate, if_true]]
        rw [heq, incPolls_eq, processCsvFile_eq, addEvents_comp, addEvents_comp,
          List.nil_append, Nat.zero_add]
      · intro e he
        rcases List.mem_append.mp he with h1 | h1
        · exact toList_map_fileResult_nonterminal _ e h1
        · exact hterm e h1

theorem runDirs_shape (w : Worker) (c : Option Nat) (ds : List Directory) (st : RunState) :
    ∃ es np, runDirs w c ds st = addEvents es np st
      ∧ ∀ e ∈ es, isTerminalEvent e = false := by
  induction ds generalizing st with
  | nil => exact ⟨[], 0, (addEvents_nil st).symm, by simp⟩
  | cons d rest ih =>
    cases hgate : isRunningAt c st.polls with
    | false =>
      refine ⟨[], 1, ?_, by simp⟩
      rw [show runDirs w c (d :: rest) st = incPolls st by
        simp only [runDirs, hgate, Bool.false_eq_true, if_false]]
      rw [incPolls_eq]
    | true =>
      obtain ⟨es1, np1, heq1, hterm1⟩ :=
        runXlsxFiles_shape w c d.path d.xlsxFiles
          { st with polls := st.polls + 1,
                    events := st.events ++ [Event.progress ("正在分析目录: " ++ d.path)] }
      obtain ⟨es2, np2, heq2, hterm2⟩ :=
        runCsvFiles_shape w c d.path d.csvFiles
          (runXlsxFiles w c d.path d.xlsxFiles
            { st with polls := st.polls + 1,
                      events := st.events ++ [Event.progress ("正在分析目录: " ++ d.path)] })
      obtain ⟨es3, np3, heq3, hterm3⟩ :=
        ih (runCsvFiles w c d.path d.csvFiles
          (runXlsxFiles w c d.path d.xlsxFiles
            { st with polls := st.polls + 1,
                      events := st.events ++ [Event.progress ("正在分析目录: " ++ d.path)] }))
      refine ⟨((Event.progress ("正在分析目录: " ++ d.path) :: es1) ++ es2) ++ es3,
        ((1 + np1) + np2) + np3, ?_, ?_⟩
      · rw [show runDirs w c (d :: rest) st
            = runDirs w c rest
                (runCsvFiles w c d.path d.csvFiles
                  (runXlsxFiles w c d.path d.xlsxFiles
                    { st with polls := st.polls + 1,
                              events := st.events
                                ++ [Event.progress ("正在分析目录: " ++ d.path)] })) by
          simp only [runDirs, hgate, if_true]]
        rw [heq3, heq2, heq1, progressState_eq, addEvents_comp, addEvents_comp,
          addEvents_comp]
        simp [List.append_assoc, Nat.add_assoc]
      · intro e he
        rcases List.mem_append.mp he with h1 | h1
        · rcases List.mem_append.mp h1 with h2 | h2
          · rcases List.mem_cons.mp h2 with h3 | h3
            · rw [h3]; rfl
            · exact hterm1 e h3
          · exact hterm2 e h2
        · exact hterm3 e h1

/-- Any run — cancelled or not — emits a single terminal event, a
`finished` carrying exactly the aggregate of the emitted results, and it is
the last event. -/
theorem runWorker_shape (w : Worker) (c : Option Nat) :
    ∃ es s, runWorker w c = es ++ [Event.finished s]
      ∧ (∀ e ∈ es, isTerminalEvent e = false)
      ∧ s.total_files = (emittedResults es).length
      ∧ s.total_amount = sumAmounts (emittedResults es) := by
  obtain ⟨es, np, heq, hterm⟩ := runDirs_shape w c w.directories initState
  refine ⟨es,
    { total_files := (emittedResults es).length,
      total_amount := sumAmounts (emittedResults es) },
    ?_, hterm, rfl, rfl⟩
  unfold runWorker
  rw [heq]
  have h1 : (addEvents es np initState).events = es := by
    simp [addEvents, initState]
  have h2 : (addEvents es np initState).totalFiles = (emittedResults es).length := by
    simp [addEvents, initState]
  have h3 : (addEvents es np initState).totalAmount = sumAmounts (emittedResults es) := by
    simp [addEvents, initState]
  simp only [h1, h2, h3]

/-- Claim C9: every run's notification sequence consists of non-terminal
events (progress and per-file results) followed by exactly one terminal
event, which is the completion; for an uncancelled run the non-terminal
part is exactly the per-directory blocks `progress :: results` in order. -/
theorem claim_C9_event_ordering (w : Worker) (c : Option Nat) :
    (∃ es s, runWorker w c = es ++ [Event.finished s]
        ∧ ∀ e ∈ es, isTerminalEvent e = false)
      ∧ runWorker w none
          = (w.directories.flatMap (dirEvents w))
            ++ [Event.finished { total_files := (allResults w).length,
                                 total_amount := sumAmounts (allResults w) }] := by
  obtain ⟨es, s, heq, hterm, _, _⟩ := runWorker_shape w c
  exact ⟨⟨es, s, heq, hterm⟩, runWorker_none w⟩

/-- Claim C8: a file whose load fails is skipped — state unchanged, nothing
emitted — and the loop continues with the remaining files; a CSV that fails
UTF-8 decoding is retried exactly once with GBK (a UTF-8 success is kept,
and a non-decode UTF-8 error is not retried); and no per-file error ever
surfaces to the caller: no run contains an `error_occurred` notification. -/
theorem claim_C8_error_handling :
    (∀ (w : Worker) p (f : XlsxFile) st e, f.parsed = Except.error e →
        processXlsxFile w p f st = st)
      ∧ (∀ (w : Worker) p (f : CsvFile) st e, readCsvWithFallback f = Except.error e →
          processCsvFile w p f st = st)
      ∧ (∀ (w : Worker) c p (f : XlsxFile) rest st e, f.parsed = Except.error e →
          isRunningAt c st.polls = true →
          runXlsxFiles w c p (f :: rest) st = runXlsxFiles w c p rest (incPolls st))
      ∧ (∀ (f : CsvFile) (t : Table), f.readUtf8 = Except.ok t →
          readCsvWithFallback f = Except.ok t)
      ∧ (∀ f : CsvFile, f.readUtf8 = Except.error ReadError.decodeError →
          readCsvWithFallback f = f.readGbk)
      ∧ (∀ (f : CsvFile) m, f.readUtf8 = Except.error (ReadError.otherError m) →
          readCsvWithFallback f = Except.error (ReadError.otherError m))
      ∧ (∀ (w : Worker) c m, Event.errorOccurred m ∉ runWorker w c) := by
  refine ⟨?_, ?_, ?_, ?_, ?_, ?_, ?_⟩
  · intro w p f st e h
    simp only [processXlsxFile, h]
  · intro w p f st e h
    simp only [processCsvFile, h]
  · intro w c p f rest st e h hgate
    rw [show runXlsxFiles w c p (f :: rest) st
        = runXlsxFiles w c p rest (processXlsxFile w p f (incPolls st)) by
      simp only [runXlsxFiles, hgate, if_true]]
    rw [show processXlsxFile w p f (incPolls st) = incPolls st by
      simp only [processXlsxFile, h]]
  · intro f t h
    unfold readCsvWithFallback
    rw [h]
  · intro f h
    unfold readCsvWithFallback
    rw [h]
  · intro f m h
    unfold readCsvWithFallback
    rw [h]
  · intro w c m hmem
    obtain ⟨es, s, heq, hterm, _, _⟩ := runWorker_shape w c
    rw [heq] at hmem
    rcases List.mem_append.mp hmem with h1 | h1
    · have := hterm _ h1
      simp [isTerminalEvent] at this
    · exact absurd (List.mem_singleton.mp h1) (by simp)

theorem pref_take {α : Type} (m : Nat) (l : List α) : l.take m <+: l :=
  ⟨l.drop m, List.take_append_drop m l⟩

theorem pref_extend {α : Type} {l1 l2 : List α} (t : List α) (h : l1 <+: l2) :
    l1 <+: l2 ++ t := by
  obtain ⟨u, hu⟩ := h
  exact ⟨u ++ t, by rw [← List.append_assoc, hu]⟩

theorem pref_map_left {α : Type} (l : List α) {p f : List α} (h : p <+: f) :
    (l ++ p) <+: (l ++ f) := by
  obtain ⟨u, hu⟩ := h
  exact ⟨u, by rw [List.append_assoc, hu]⟩

theorem pref_filterMap {α β : Type} (g : α → Option β) {l1 l2 : List α} (h : l1 <+: l2) :
    l1.filterMap g <+: l2.filterMap g := by
  obtain ⟨u, hu⟩ := h
  exact ⟨u.filterMap g, by rw [← List.filterMap_append, hu]⟩

theorem runXlsxFiles_some (w : Worker) (k : Nat) (p : String)
    (fs : List XlsxFile) (st : RunState) :
    ∃ m np, m ≤ fs.length
      ∧ runXlsxFiles w (some k) p fs st
          = addEvents (((fs.take m).filterMap (xlsxResultOf w p)).map Event.fileResult) np st
      ∧ (m < fs.length → k ≤ st.polls + np)
      ∧ (k ≤ st.polls → m = 0) := by
  induction fs generalizing st with
  | nil =>
    refine ⟨0, 0, Nat.le_refl 0, ?_, ?_, fun _ => rfl⟩
    · rw [show runXlsxFiles w (some k) p [] st = st from rfl]
      exact (addEvents_nil st).symm
    · intro h
      exact absurd h (Nat.not_lt_zero 0)
  | cons f rest ih =>
    by_cases hk : st.polls < k
    · have hgate : isRunningAt (some k) st.polls = true := by
        simp [isRunningAt, hk]
      obtain ⟨m, np, hm, heq, hbreak, hzero⟩ := ih (processXlsxFile w p f (incPolls st))
      have hp1 : (processXlsxFile w p f (incPolls st)).polls = st.polls + 1 := by
        rw [processXlsxFile_eq, incPolls_eq, addEvents_comp]
        simp [addEvents]
      refine ⟨m + 1, 1 + np, Nat.succ_le_succ hm, ?_, ?_, ?_⟩
      · rw [show runXlsxFiles w (some k) p (f :: rest) st
            = runXlsxFiles w (some k) p rest (processXlsxFile w p f (incPolls st)) by
          simp only [runXlsxFiles, hgate, if_true]]
        rw [heq, incPolls_eq, processXlsxFile_eq, addEvents_comp, addEvents_comp,
          List.nil_append, Nat.zero_add]
        have hE : (xlsxResultOf w p f).toList.map Event.fileResult
            ++ ((rest.take m).filterMap (xlsxResultOf w p)).map Event.fileResult
            = (((f :: rest).take (m + 1)).filterMap (xlsxResultOf w p)).map
                Event.fileResult := by
          rw [List.take_succ_cons, ← toList_append_filterMap, List.map_append]
        rw [hE]
      · intro h
        have h2 := hbreak (Nat.lt_of_succ_lt_succ h)
        rw [hp1] at h2
        omega
      · intro h
        exact absurd h (Nat.not_le.mpr hk)
    · have hgate : isRunningAt (some k) st.polls = false := by
        simp only [isRunningAt, decide_eq_false_iff_not]
        omega
      refine ⟨0, 1, Nat.zero_le _, ?_, ?_, fun _ => rfl⟩
      · rw [show runXlsxFiles w (some k) p (f :: rest) st = incPolls st by
          simp only [runXlsxFiles, hgate, Bool.false_eq_true, if_false]]
        rw [incPolls_eq]
        rfl
      · intro _
        omega

theorem runCsvFiles_some (w : Worker) (k : Nat) (p : String)
    (fs : List CsvFile) (st : RunState) :
    ∃ m np, m ≤ fs.length
      ∧ runCsvFiles w (some k) p fs st
          = addEvents (((fs.take m).filterMap (csvResultOf w p)).map Event.fileResult) np st
      ∧ (m < fs.length → k ≤ st.polls + np)
      ∧ (k ≤ st.polls → m = 0) := by
  induction fs generalizing st with
  | nil =>
    refine ⟨0, 0, Nat.le_refl 0, ?_, ?_, fun _ => rfl⟩
    · rw [show runCsvFiles w (some k) p [] st = st from rfl]
      exact (addEvents_nil st).symm
    · intro h
      exact absurd h (Nat.not_lt_zero 0)
  | cons f rest ih =>
    by_cases hk : st.polls < k
    · have hgate : isRunningAt (some k) st.polls = true := by
        simp [isRunningAt, hk]
      obtain ⟨m, np, hm, heq, hbreak, hzero⟩ := ih (processCsvFile w p f (incPolls st))
      have hp1 : (processCsvFile w p f (incPolls st)).polls = st.polls + 1 := by
        rw [processCsvFile_eq, incPolls_eq, addEvents_comp]
        simp [addEvents]
      refine ⟨m + 1, 1 + np, Nat.succ_le_succ hm, ?_, ?_, ?_⟩
      · rw [show runCsvFiles w (some k) p (f :: rest) st
            = runCsvFiles w (some k) p rest (processCsvFile w p f (incPolls st)) by
          simp only [runCsvFiles, hgate, if_true]]
        rw [heq, incPolls_eq, processCsvFile_eq, addEvents_comp, addEvents_comp,
          List.nil_append, Nat.zero_add]
        have hE : (csvResultOf w p f).toList.map Event.fileResult
            ++ ((rest.take m).filterMap (csvResultOf w p)).map Event.fileResult
            = (((f :: rest).take (m + 1)).filterMap (csvResultOf w p)).map
                Event.fileResult := by
          rw [List.take_succ_cons, ← toList_append_filterMap, List.map_append]
        rw [hE]
      · intro h
        have h2 := hbreak (Nat.lt_of_succ_lt_succ h)
        rw [hp1] at h2
        omega
      · intro h
        exact absurd h (Nat.not_le.mpr hk)
    · have hgate : isRunningAt (some k) st.polls = false := by
        simp only [isRunningAt, decide_eq_false_iff_not]
        omega
      refine ⟨0, 1, Nat.zero_le _, ?_, ?_, fun _ => rfl⟩
      · rw [show runCsvFiles w (some k) p (f :: rest) st = incPolls st by
          simp only [runCsvFiles, hgate, Bool.false_eq_true, if_false]]
        rw [incPolls_eq]
        rfl
      · intro _
        omega

theorem addEvents_polls (es : List Event) (np : Nat) (st : RunState) :
    (addEvents es np st).polls = st.polls + np := rfl

theorem runDirs_some (w : Worker) (k : Nat) (ds : List Directory) (st : RunState) :
    ∃ es np,
      runDirs w (some k) ds st = addEvents es np st
        ∧ emittedResults es <+: emittedResults (ds.flatMap (dirEvents w))
        ∧ (k ≤ st.polls → es = []) := by
  induction ds generalizing st with
  | nil =>
    exact ⟨[], 0, (addEvents_nil st).symm, ⟨_, rfl⟩, fun _ => rfl⟩
  | cons d rest ih =>
    by_cases hk : st.polls < k
    · have hgate : isRunningAt (some k) st.polls = true := by
        simp [isRunningAt, hk]
      obtain ⟨m1, np1, hm1, heq1, hbreak1, hzero1⟩ :=
        runXlsxFiles_some w k d.path d.xlsxFiles
          { st with polls := st.polls + 1,
                    events := st.events ++ [Event.progress ("正在分析目录: " ++ d.path)] }
      obtain ⟨m2, np2, hm2, heq2, hbreak2, hzero2⟩ :=
        runCsvFiles_some w k d.path d.csvFiles
          (runXlsxFiles w (some k) d.path d.xlsxFiles
            { st with polls := st.polls + 1,
                      events := st.events ++ [Event.progress ("正在分析目录: " ++ d.path)] })
      obtain ⟨es3, np3, heq3, hpre3, hzero3⟩ :=
        ih (runCsvFiles w (some k) d.path d.csvFiles
          (runXlsxFiles w (some k) d.path d.xlsxFiles
            { st with polls := st.polls + 1,
                      events := st.events ++ [Event.progress ("正在分析目录: " ++ d.path)] }))
      have hpollsx : (runXlsxFiles w (some k) d.path d.xlsxFiles
          { st with polls := st.polls + 1,
                    events := st.events
                      ++ [Event.progress ("正在分析目录: " ++ d.path)] }).polls
          = st.polls + 1 + np1 := by
        rw [heq1]
        rfl
      have hpollsc : (runCsvFiles w (some k) d.path d.csvFiles
          (runXlsxFiles w (some k) d.path d.xlsxFiles
            { st with polls := st.polls + 1,
                      events := st.events
                        ++ [Event.progress ("正在分析目录: " ++ d.path)] })).polls
          = st.polls + 1 + np1 + np2 := by
        rw [heq2, addEvents_polls, hpollsx]
      refine ⟨(([Event.progress ("正在分析目录: " ++ d.path)]
            ++ ((d.xlsxFiles.take m1).filterMap (xlsxResultOf w d.path)).map Event.fileResult)
            ++ ((d.csvFiles.take m2).filterMap (csvResultOf w d.path)).map Event.fileResult)
            ++ es3,
          ((1 + np1) + np2) + np3, ?_, ?_, ?_⟩
      · rw [show runDirs w (some k) (d :: rest) st
            = runDirs w (some k) rest
                (runCsvFiles w (some k) d.path d.csvFiles
                  (runXlsxFiles w (some k) d.path d.xlsxFiles
                    { st with polls := st.polls + 1,
                              events := st.events
                                ++ [Event.progress ("正在分析目录: " ++ d.path)] })) by
          simp only [runDirs, hgate, if_true]]
        rw [heq3, heq2, heq1, progressState_eq, addEvents_comp, addEvents_comp,
          addEvents_comp]
        simp [List.append_assoc, Nat.add_assoc]
      · have hemit : emittedResults ((([Event.progress ("正在分析目录: " ++ d.path)]
              ++ ((d.xlsxFiles.take m1).filterMap (xlsxResultOf w d.path)).map
                  Event.fileResult)
              ++ ((d.csvFiles.take m2).filterMap (csvResultOf w d.path)).map
                  Event.fileResult) ++ es3)
            = (((d.xlsxFiles.take m1).filterMap (xlsxResultOf w d.path)
                ++ (d.csvFiles.take m2).filterMap (csvResultOf w d.path))
                ++ emittedResults es3) := by
          rw [emittedResults_append, emittedResults_append, emittedResults_append,
            emittedResults_map_fileResult, emittedResults_map_fileResult]
          rw [show emittedResults [Event.progress ("正在分析目录: " ++ d.path)] = [] from rfl]
          rw [List.nil_append]
        have htarget : emittedResults ((d :: rest).flatMap (dirEvents w))
            = (d.xlsxFiles.filterMap (xlsxResultOf w d.path)
                ++ d.csvFiles.filterMap (csvResultOf w d.path))
                ++ emittedResults (rest.flatMap (dirEvents w)) := by
          rw [List.flatMap_cons, emittedResults_append, emittedResults_dirEvents]
          rfl
        rw [hemit, htarget]
        by_cases hx : m1 = d.xlsxFiles.length
        · by_cases hc : m2 = d.csvFiles.length
          · rw [hx, hc, List.take_length, List.take_length]
            exact pref_map_left _ hpre3
          · have hlt2 : m2 < d.csvFiles.length := Nat.lt_of_le_of_ne hm2 hc
            have hkc := hbreak2 hlt2
            rw [hpollsx] at hkc
            have hes3 : es3 = [] := by
              refine hzero3 ?_
              rw [hpollsc]
              omega
            rw [hx, List.take_length, hes3]
            rw [show emittedResults ([] : List Event) = [] from rfl, List.append_nil]
            rw [List.append_assoc]
            refine pref_map_left _ ?_
            exact pref_extend _ (pref_filterMap _ (pref_take m2 d.csvFiles))
        · have hlt1 : m1 < d.xlsxFiles.length := Nat.lt_of_le_of_ne hm1 hx
          have hkx := hbreak1 hlt1
          have hkx2 : k ≤ st.polls + 1 + np1 := by
            simpa using hkx
          have hm20 : m2 = 0 := by
            refine hzero2 ?_
            rw [hpollsx]
            omega
          have hes3 : es3 = [] := by
            refine hzero3 ?_
            rw [hpollsc]
            omega
          rw [hm20, hes3]
          rw [show (d.csvFiles.take 0) = [] from rfl]
          rw [show (([] : List CsvFile).filterMap (csvResultOf w d.path)) = [] from rfl]
          rw [show emittedResults ([] : List Event) = [] from rfl]
          rw [List.append_nil, List.append_nil, List.append_assoc]
          exact pref_extend _ (pref_filterMap _ (pref_take m1 d.xlsxFiles))
      · intro h
        exact absurd h (Nat.not_le.mpr hk)
    · have hgate : isRunningAt (some k) st.polls = false := by
        simp only [isRunningAt, decide_eq_false_iff_not]
        omega
      refine ⟨[], 1, ?_, ⟨_, rfl⟩, fun _ => rfl⟩
      rw [show runDirs w (some k) (d :: rest) st = incPolls st by
        simp only [runDirs, hgate, Bool.false_eq_true, if_false]]
      rw [incPolls_eq]

theorem emittedResults_runWorker_eq (w : Worker) (c : Option Nat)
    (es : List Event) (np : Nat)
    (h : runDirs w c w.directories initState = addEvents es np initState) :
    emittedResults (runWorker w c) = emittedResults es := by
  unfold runWorker
  rw [h]
  have h1 : (addEvents es np initState).events = es := by
    simp [addEvents, initState]
  rw [h1, emittedResults_append]
  rw [show emittedResults [Event.finished
      { total_files := (addEvents es np initState).totalFiles,
        total_amount := (addEvents es np initState).totalAmount }] = [] from rfl]
  rw [List.append_nil]

/-- Claim C7: a cancelled run still ends with a single completion (never a
failure) whose summary counts exactly the results emitted before
cancellation; the emitted results are a prefix of the uncancelled run's
results (once the flag is cleared nothing further is emitted); a flag
cleared before the first poll yields an empty run; and cancelling between
directory 1 and directory 2 of 3 yields a completion covering only
directory 1's file. -/
theorem claim_C7_cancellation (w : Worker) (k : Nat) :
    (∃ es s, runWorker w (some k) = es ++ [Event.finished s]
        ∧ (∀ e ∈ es, isTerminalEvent e = false)
        ∧ s.total_files = (emittedResults (runWorker w (some k))).length
        ∧ s.total_amount = sumAmounts (emittedResults (runWorker w (some k))))
      ∧ emittedResults (runWorker w (some k)) <+: emittedResults (runWorker w none)
      ∧ (k = 0 → emittedResults (runWorker w (some k)) = [])
      ∧ runWorker w3 (some 2)
          = [Event.progress "正在分析目录: d1",
             Event.fileResult { directory := "d1", filename := "f1.xlsx",
                                monthly_card := "", amount := 10 },
             Event.finished { total_files := 1, total_amount := 10 }] := by
  obtain ⟨es2, np2, heq2, hpre2, hzero2⟩ := runDirs_some w k w.directories initState
  have hemit2 : emittedResults (runWorker w (some k)) = emittedResults es2 :=
    emittedResults_runWorker_eq w (some k) es2 np2 heq2
  refine ⟨?_, ?_, ?_, ?_⟩
  case refine_4 =>
    have h1 : runWorker w3 (some 2)
        = [Event.progress "正在分析目录: d1",
           Event.fileResult { directory := "d1", filename := "f1.xlsx",
                              monthly_card := "", amount := (0 : ℚ) + 10 },
           Event.finished { total_files := 1,
                            total_amount := (0 : ℚ) + ((0 : ℚ) + 10) }] := rfl
    rw [h1]
    simp only [zero_add]
  · obtain ⟨es, s, heq, hterm, hf, ha⟩ := runWorker_shape w (some k)
    have hemit : emittedResults (runWorker w (some k)) = emittedResults es := by
      rw [heq, emittedResults_append]
      rw [show emittedResults [Event.finished s] = [] from rfl, List.append_nil]
    exact ⟨es, s, heq, hterm, by rw [hemit]; exact hf, by rw [hemit]; exact ha⟩
  · rw [hemit2, emittedResults_runWorker_none]
    refine hpre2.trans ?_
    rw [emittedResults_flatMap]
    exact ⟨[], List.append_nil _⟩
  · intro hzero
    rw [hemit2, hzero2 (by rw [hzero]; exact Nat.le_refl 0)]
    rfl

/-- Claim C7 witness: the cancellation theorem applied with the flag
cleared before the first poll — the run emits no results at all. -/
theorem claim_C7_cancellation_witness :
    emittedResults (runWorker w3 (some 0)) = [] :=
  (claim_C7_cancellation w3 0).2.2.1 rfl

/-- Claim C1 witness: a loaded table lacking the target column is skipped
with the run state unchanged. -/
theorem claim_C1_run_totals_witness :
    ("金额" ∉ (loadedTable w3 tNoCol).headers)
      ∧ processTable w3 "D" "f.xlsx" tNoCol initState = initState :=
  ⟨by decide, (claim_C1_run_totals w3).2.2 "D" "f.xlsx" tNoCol initState (by decide)⟩

/-- Claim C2 witness: a column with no numeric-coercible cell sums to
zero. -/
theorem claim_C2_subtotal_witness :
    (∀ c ∈ getColumn tBad "金额", toNumeric c = none)
      ∧ fileSubtotal tBad "金额" = 0 :=
  ⟨by decide, (claim_C2_subtotal tBad "金额").2.2 (by decide)⟩

/-- Claim C5 witness: in `CSV账单2024010112.xlsx` the first 10-digit window
sits at position 5, and the extractor returns exactly that window. -/
theorem claim_C5_identifier_witness :
    (∀ j < 5, checkWin ("CSV账单2024010112.xlsx".toList.drop j) = false)
      ∧ checkWin ("CSV账单2024010112.xlsx".toList.drop 5) = true
      ∧ extractMonthlyCard "CSV账单2024010112.xlsx"
          = (("CSV账单2024010112.xlsx".toList.drop 5).take 10).asString :=
  ⟨by decide, by decide,
   (claim_C5_identifier "CSV账单2024010112.xlsx").2.1 5 (by decide) (by decide)⟩

/-- Claim C8 witness: a failing xlsx file leaves the state unchanged, and a
UTF-8 decode failure falls back to the GBK read. -/
theorem claim_C8_error_handling_witness :
    (fErr.parsed = Except.error "malformed"
      ∧ processXlsxFile w3 "D1" fErr initState = initState)
      ∧ (csvDec.readUtf8 = Except.error ReadError.decodeError
      ∧ readCsvWithFallback csvDec = csvDec.readGbk) :=
  ⟨⟨rfl, claim_C8_error_handling.1 w3 "D1" fErr initState "malformed" rfl⟩,
   ⟨rfl, claim_C8_error_handling.2.2.2.2.1 csvDec rfl⟩⟩

end PivotTool

